import Mathlib

/-!
Verification of `cvss/common/metrics.go` (package `common` of nvdtools).

The Go file defines a generic metric vector: `Metrics` is a map from
metric name to value with `Get`/`Set`/`String`, `strToMetrics` parses a
vector string of the form `A:B/C:D`, and `WeightsMetrics` wraps a
`Metrics` together with a weight table `map[string]map[string]float64`,
validating every `Set` against the table and exposing `Weight`,
`WeightDefault`.

Embedding choices:
* A Go `map[string]string` is embedded as an association list
  `List (String × String)` with unique keys maintained by the update
  operation `mapInsert` (Go map assignment semantics: overwrite if the
  key exists, otherwise add).  Go map iteration order is unspecified, so
  claims about serialization quantify over permutations of the entries.
* The Go separators `partSeparator = "/"` and `metricSeparator = ":"`
  are one-character strings and `strings.Split` with a one-character
  separator splits on that character, so they are embedded as `Char`
  and splitting/joining is done with `List.splitOn`/`List.intercalate`
  on `String.data`.
* Go errors are embedded as the inductive `MetricsError`; `errors.Wrapf`
  from pkg/errors becomes the constructor `MetricsError.wrap`, and
  `MetricsError.cause` strips wrappings like `errors.Cause`.
* Methods that mutate the receiver and return an `error` are embedded as
  functions returning the new state paired with an `Option MetricsError`
  (`none` = Go `nil` error); on the error path the state comes back
  unchanged, which is what the Go code does since it only assigns into
  the map after all checks pass.
* Go float64 is embedded as `Float`; the code only stores and looks up
  weights, it never computes with them.  Indexing a Go map at a missing
  key yields the zero value, hence the `.getD` defaults in `Weight`.
-/

namespace CvssCommon

/-- Go `partSeparator = "/"` (one-character separator string). -/
def partSeparator : Char := '/'

/-- Go `metricSeparator = ":"` (one-character separator string). -/
def metricSeparator : Char := ':'

/-- Error taxonomy of the Go file: `Get`'s "metric %q not defined",
`strToMetrics`'s "need two values separated by :" and "metric %q already
set", `WeightsMetrics.Set`'s "metric %q not defined for vector" and
"can't set metric %q to %q", and `wrap` for `errors.Wrapf`. -/
inductive MetricsError where
  | notFound (metric : String)
  | malformedToken (token : String)
  | duplicateMetric (metric : String)
  | unknownMetric (metric : String)
  | invalidValue (metric value : String)
  | wrap (context : String) (cause : MetricsError)
deriving DecidableEq, Repr

/-- Root cause of a possibly wrapped error, like pkg/errors `Cause`. -/
def MetricsError.cause : MetricsError → MetricsError
  | .wrap _ e => e.cause
  | e => e

/-- Go `type Metrics map[string]string`, as an association list with
unique keys. -/
abbrev Metrics := List (String × String)

/-- Lookup in an association list: `value, ok := m[k]`. -/
def mapLookup {α : Type} (k : String) : List (String × α) → Option α
  | [] => none
  | (k', v) :: rest => if k' = k then some v else mapLookup k rest

/-- Go map assignment `m[metric] = value`: overwrite the existing entry
for the key, or add a new entry. -/
def mapInsert (metric value : String) : Metrics → Metrics
  | [] => [(metric, value)]
  | (k, v) :: rest =>
    if k = metric then (metric, value) :: rest
    else (k, v) :: mapInsert metric value rest

/-- Go `func (ms Metrics) Get(m string) (string, error)`. -/
def Metrics.Get (ms : Metrics) (m : String) : Except MetricsError String :=
  match mapLookup m ms with
  | some value => .ok value
  | none => .error (.notFound m)

/-- Go `func (ms Metrics) Set(metric string, value string) error`:
unconditionally stores the pair and returns `nil`. -/
def Metrics.Set (ms : Metrics) (metric value : String) :
    Metrics × Option MetricsError :=
  (mapInsert metric value ms, none)

/-- Token `metric:value` built by `fmt.Sprintf("%s%s%s", metric,
metricSeparator, value)`, at the character-list level. -/
def metricToken (p : String × String) : List Char :=
  p.1.data ++ metricSeparator :: p.2.data

/-- Go `func (ms Metrics) String() string`: join all `metric:value`
tokens with `/`.  The Go code iterates the map in unspecified order; the
embedding serializes in list order, and order-dependence is handled by
quantifying over permutations in the theorems. -/
def Metrics.string (ms : Metrics) : String :=
  ⟨[partSeparator].intercalate (ms.map metricToken)⟩

/-- Loop body of `strToMetrics`: for each part, split on `:`, require
exactly two fields, reject metrics already present, then insert. -/
def strToMetricsAux : List (List Char) → Metrics → Except MetricsError Metrics
  | [], acc => .ok acc
  | part :: rest, acc =>
    match part.splitOn metricSeparator with
    | [m, v] =>
      if (mapLookup (⟨m⟩ : String) acc).isSome then
        .error (.duplicateMetric ⟨m⟩)
      else
        strToMetricsAux rest (acc ++ [(⟨m⟩, ⟨v⟩)])
    | _ => .error (.malformedToken ⟨part⟩)

/-- Go `func strToMetrics(str string) (Metrics, error)`: parse `A:B/C:D`
into `map{A:B, C:D}`. -/
def strToMetrics (str : String) : Except MetricsError Metrics :=
  strToMetricsAux (str.data.splitOn partSeparator) []

/-- Weight table `map[string]map[string]float64`. -/
abbrev Weights := List (String × List (String × Float))

/-- Go `type WeightsMetrics struct { Metrics; Weights ... }`. -/
structure WeightsMetrics where
  metrics : Metrics
  weights : Weights

/-- Go `func (wms WeightsMetrics) Set(metric string, value string) error`:
reject metrics not in the weight table, reject values not in the
metric's inner table, otherwise delegate to `Metrics.Set`. -/
def WeightsMetrics.Set (wms : WeightsMetrics) (metric value : String) :
    WeightsMetrics × Option MetricsError :=
  match mapLookup metric wms.weights with
  | none => (wms, some (.unknownMetric metric))
  | some values =>
    match mapLookup value values with
    | none => (wms, some (.invalidValue metric value))
    | some _ =>
      let r := wms.metrics.Set metric value
      ({ wms with metrics := r.1 }, r.2)

/-- Loop of `WeightsMetrics.Parse`: `for metric, value := range metrics`
calling `wms.Set` and returning the first wrapped error. -/
def WeightsMetrics.parseLoop :
    WeightsMetrics → Metrics → WeightsMetrics × Option MetricsError
  | wms, [] => (wms, none)
  | wms, (metric, value) :: rest =>
    match WeightsMetrics.Set wms metric value with
    | (wms', none) => WeightsMetrics.parseLoop wms' rest
    | (wms', some e) =>
      (wms', some (.wrap ("unable to set metric " ++ metric ++ " to " ++ value) e))

/-- Go `func (wms WeightsMetrics) Parse(str string) error`: parse the
raw string, then set every parsed pair, stopping at the first error. -/
def WeightsMetrics.Parse (wms : WeightsMetrics) (str : String) :
    WeightsMetrics × Option MetricsError :=
  match strToMetrics str with
  | .error e => (wms, some (.wrap "unable to parse metrics" e))
  | .ok metrics => WeightsMetrics.parseLoop wms metrics

/-- Go map indexing `wms.Weights[metric][value]`: a missing metric gives
the nil inner map and a missing value gives the float64 zero value. -/
def weightsIndex (w : Weights) (metric value : String) : Float :=
  (mapLookup value ((mapLookup metric w).getD [])).getD 0

/-- Go `func (wms WeightsMetrics) Weight(metric string) (float64, error)`. -/
def WeightsMetrics.Weight (wms : WeightsMetrics) (metric : String) :
    Except MetricsError Float :=
  match wms.metrics.Get metric with
  | .error e =>
    .error (.wrap ("unable to get value for metric " ++ metric) e)
  | .ok value => .ok (weightsIndex wms.weights metric value)

/-- Go `func (wms WeightsMetrics) WeightDefault(metric string, def float64) float64`. -/
def WeightsMetrics.WeightDefault (wms : WeightsMetrics) (metric : String)
    (d : Float) : Float :=
  match wms.Weight metric with
  | .ok w => w
  | .error _ => d

/-! ### Token observers (the fields `strings.Split(part, ":")` produces) -/

/-- Fields of one `/`-delimited token, as split on `:`. -/
def tokenFields (part : List Char) : List (List Char) :=
  part.splitOn metricSeparator

/-- Metric name of a token: its first field. -/
def tokenName (part : List Char) : String :=
  ⟨(tokenFields part).headI⟩

/-- Value of a token: its second field. -/
def tokenValue (part : List Char) : String :=
  ⟨((tokenFields part).drop 1).headI⟩

/-- A token is well formed when it splits on `:` into exactly two
fields, the condition `len(tmp) == 2` of `strToMetrics`. -/
def wellFormed (part : List Char) : Prop :=
  (tokenFields part).length = 2

/-- Valid identifier per the data model: non-empty and free of both
separator characters. -/
def validIdent (s : String) : Prop :=
  s ≠ "" ∧ partSeparator ∉ s.data ∧ metricSeparator ∉ s.data

instance (s : String) : Decidable (validIdent s) :=
  inferInstanceAs
    (Decidable (s ≠ "" ∧ partSeparator ∉ s.data ∧ metricSeparator ∉ s.data))

instance (part : List Char) : Decidable (wellFormed part) :=
  inferInstanceAs (Decidable ((tokenFields part).length = 2))

/-- Vectors reachable from the empty `Metrics` by `Metrics.Set` calls
whose arguments are valid identifiers. -/
inductive BuiltBySet : Metrics → Prop
  | init : BuiltBySet []
  | step (ms : Metrics) (m v : String) (hms : BuiltBySet ms)
      (hm : validIdent m) (hv : validIdent v) :
      BuiltBySet (Metrics.Set ms m v).1

/-- Every stored metric is a key of the weight table and its stored
value is a key of the metric's inner table. -/
def WInv (W : Weights) (ms : Metrics) : Prop :=
  ∀ m v, mapLookup m ms = some v →
    ∃ tbl w, mapLookup m W = some tbl ∧ mapLookup v tbl = some w

/-- States of a `WeightsMetrics` over table `W` reachable from the empty
vector through `WeightsMetrics.Set` and `WeightsMetrics.Parse` only. -/
inductive ReachableWM (W : Weights) : Metrics → Prop
  | init : ReachableWM W []
  | set (ms : Metrics) (m v : String) (h : ReachableWM W ms) :
      ReachableWM W ((WeightsMetrics.Set ⟨ms, W⟩ m v).1.metrics)
  | parse (ms : Metrics) (s : String) (h : ReachableWM W ms) :
      ReachableWM W ((WeightsMetrics.Parse ⟨ms, W⟩ s).1.metrics)

/-! ### Association-map lemmas -/

theorem mapLookup_eq_none {α : Type} (k : String) (l : List (String × α)) :
    mapLookup k l = none ↔ k ∉ l.map Prod.fst := by
  induction l with
  | nil => simp [mapLookup]
  | cons p rest ih =>
    obtain ⟨k', v⟩ := p
    by_cases h : k' = k
    · subst h; simp [mapLookup]
    · simp [mapLookup, h, ih, Ne.symm h]

theorem mapLookup_eq_some {α : Type} (k : String) (v : α)
    (l : List (String × α)) (hnd : (l.map Prod.fst).Nodup) :
    mapLookup k l = some v ↔ (k, v) ∈ l := by
  induction l with
  | nil => simp [mapLookup]
  | cons p rest ih =>
    obtain ⟨k', v'⟩ := p
    simp only [List.map_cons, List.nodup_cons] at hnd
    by_cases h : k' = k
    · subst h
      simp only [mapLookup, if_pos, List.mem_cons, Option.some.injEq,
        Prod.mk.injEq, true_and]
      constructor
      · rintro rfl; exact Or.inl rfl
      · rintro (rfl | hmem)
        · rfl
        · exact absurd (List.mem_map_of_mem Prod.fst hmem) hnd.1
    · simp only [mapLookup, if_neg h, List.mem_cons, ih hnd.2,
        Prod.mk.injEq]
      constructor
      · exact Or.inr
      · rintro (⟨h1, _⟩ | h1)
        · exact absurd h1.symm h
        · exact h1

theorem mapLookup_eq_of_perm {α : Type} (l l' : List (String × α))
    (hperm : l.Perm l') (hnd : (l'.map Prod.fst).Nodup) (k : String) :
    mapLookup k l = mapLookup k l' := by
  have hnd' : (l.map Prod.fst).Nodup :=
    ((hperm.map Prod.fst).nodup_iff).mpr hnd
  cases hl : mapLookup k l' with
  | none =>
    rw [mapLookup_eq_none] at hl ⊢
    intro hk
    exact hl (((hperm.map Prod.fst).mem_iff).mp hk)
  | some v =>
    rw [mapLookup_eq_some k v l' hnd] at hl
    rw [mapLookup_eq_some k v l hnd']
    exact hperm.mem_iff.mpr hl

theorem mapLookup_mapInsert_self (m v : String) (l : Metrics) :
    mapLookup m (mapInsert m v l) = some v := by
  induction l with
  | nil => simp [mapInsert, mapLookup]
  | cons p rest ih =>
    obtain ⟨k, w⟩ := p
    by_cases h : k = m
    · subst h; simp [mapInsert, mapLookup]
    · simp [mapInsert, mapLookup, h, ih]

theorem mapLookup_mapInsert_of_ne (k m v : String) (l : Metrics)
    (h : k ≠ m) : mapLookup k (mapInsert m v l) = mapLookup k l := by
  induction l with
  | nil => simp [mapInsert, mapLookup, Ne.symm h]
  | cons p rest ih =>
    obtain ⟨k', w⟩ := p
    by_cases h' : k' = m
    · subst h'
      simp [mapInsert, mapLookup, Ne.symm h]
    · simp only [mapInsert, if_neg h', mapLookup]
      by_cases h'' : k' = k <;> simp [mapLookup, h'', ih]

theorem mem_mapInsert (p : String × String) (m v : String) (l : Metrics) :
    p ∈ mapInsert m v l → p = (m, v) ∨ p ∈ l := by
  induction l with
  | nil => simp [mapInsert]
  | cons q rest ih =>
    obtain ⟨k, w⟩ := q
    by_cases h : k = m
    · subst h; simp [mapInsert]; tauto
    · simp only [mapInsert, if_neg h, List.mem_cons]
      rintro (h1 | h1)
      · exact Or.inr (Or.inl h1)
      · rcases ih h1 with h2 | h2
        · exact Or.inl h2
        · exact Or.inr (Or.inr h2)

theorem mem_keys_mapInsert (x m v : String) (l : Metrics) :
    x ∈ (mapInsert m v l).map Prod.fst ↔ x = m ∨ x ∈ l.map Prod.fst := by
  induction l with
  | nil => simp [mapInsert]
  | cons q rest ih =>
    obtain ⟨k, w⟩ := q
    by_cases h : k = m
    · subst h; simp [mapInsert]
    · simp [mapInsert, h, ih]; tauto

theorem nodup_keys_mapInsert (m v : String) (l : Metrics)
    (hnd : (l.map Prod.fst).Nodup) :
    ((mapInsert m v l).map Prod.fst).Nodup := by
  induction l with
  | nil => simp [mapInsert]
  | cons q rest ih =>
    obtain ⟨k, w⟩ := q
    simp only [List.map_cons, List.nodup_cons] at hnd
    by_cases h : k = m
    · subst h
      simpa [mapInsert] using hnd
    · simp only [mapInsert, if_neg h, List.map_cons, List.nodup_cons]
      refine ⟨fun hk => ?_, ih hnd.2⟩
      rcases (mem_keys_mapInsert k m v rest).mp hk with h1 | h1
      · exact h h1
      · exact hnd.1 h1

/-! ### Splitting lemmas -/

theorem intercalate_pair (x : Char) (a b : List Char) :
    [x].intercalate [a, b] = a ++ x :: b := by
  simp [List.intercalate]

theorem tokenFields_metricToken (p : String × String)
    (h1 : metricSeparator ∉ p.1.data) (h2 : metricSeparator ∉ p.2.data) :
    tokenFields (metricToken p) = [p.1.data, p.2.data] := by
  have hm : metricToken p = [metricSeparator].intercalate [p.1.data, p.2.data] := by
    rw [intercalate_pair, metricToken]
  rw [tokenFields, hm, List.splitOn_intercalate]
  · rintro l hl
    rcases List.mem_cons.mp hl with rfl | hl
    · exact h1
    · rcases List.mem_cons.mp hl with rfl | hl
      · exact h2
      · simp at hl
  · simp

theorem tokenName_metricToken (p : String × String)
    (h1 : metricSeparator ∉ p.1.data) (h2 : metricSeparator ∉ p.2.data) :
    tokenName (metricToken p) = p.1 := by
  rw [tokenName, tokenFields_metricToken p h1 h2]
  rfl

theorem tokenValue_metricToken (p : String × String)
    (h1 : metricSeparator ∉ p.1.data) (h2 : metricSeparator ∉ p.2.data) :
    tokenValue (metricToken p) = p.2 := by
  rw [tokenValue, tokenFields_metricToken p h1 h2]
  rfl

theorem wellFormed_metricToken (p : String × String)
    (h1 : metricSeparator ∉ p.1.data) (h2 : metricSeparator ∉ p.2.data) :
    wellFormed (metricToken p) := by
  rw [wellFormed, tokenFields_metricToken p h1 h2]
  rfl

theorem partSeparator_not_mem_metricToken (p : String × String)
    (h1 : partSeparator ∉ p.1.data) (h2 : partSeparator ∉ p.2.data) :
    partSeparator ∉ metricToken p := by
  rw [metricToken]
  intro hmem
  rcases List.mem_append.mp hmem with h | h
  · exact h1 h
  · rcases List.mem_cons.mp h with h | h
    · exact absurd h (by decide)
    · exact h2 h

theorem string_data_splitOn (ms : Metrics) (hne : ms ≠ [])
    (hfree : ∀ p ∈ ms, partSeparator ∉ metricToken p) :
    (Metrics.string ms).data.splitOn partSeparator = ms.map metricToken := by
  show ([partSeparator].intercalate (ms.map metricToken)).splitOn partSeparator
      = ms.map metricToken
  refine List.splitOn_intercalate (ms.map metricToken) partSeparator ?_ ?_
  · rintro l hl
    rw [List.mem_map] at hl
    obtain ⟨p, hp, rfl⟩ := hl
    exact hfree p hp
  · simpa using hne

theorem wellFormed_iff (part : List Char) :
    wellFormed part ↔ ∃ m v, tokenFields part = [m, v] := by
  rw [wellFormed]
  rcases tokenFields part with _ | ⟨a, _ | ⟨b, _ | ⟨c, t⟩⟩⟩ <;> simp

/-! ### Behaviour of the parsing loop -/

theorem strToMetricsAux_cons (part : List Char) (rest : List (List Char))
    (acc : Metrics) :
    strToMetricsAux (part :: rest) acc =
      match tokenFields part with
      | [m, v] =>
        if (mapLookup (⟨m⟩ : String) acc).isSome then
          .error (.duplicateMetric ⟨m⟩)
        else strToMetricsAux rest (acc ++ [(⟨m⟩, ⟨v⟩)])
      | _ => .error (.malformedToken ⟨part⟩) := rfl

theorem strToMetricsAux_cons_wf (part : List Char) (rest : List (List Char))
    (acc : Metrics) (m v : List Char) (hf : tokenFields part = [m, v]) :
    strToMetricsAux (part :: rest) acc =
      if (mapLookup (⟨m⟩ : String) acc).isSome then
        .error (.duplicateMetric ⟨m⟩)
      else strToMetricsAux rest (acc ++ [(⟨m⟩, ⟨v⟩)]) := by
  rw [strToMetricsAux_cons, hf]

theorem strToMetricsAux_cons_bad (part : List Char) (rest : List (List Char))
    (acc : Metrics) (hbad : ¬ wellFormed part) :
    strToMetricsAux (part :: rest) acc = .error (.malformedToken ⟨part⟩) := by
  rw [strToMetricsAux_cons]
  rcases hf : tokenFields part with _ | ⟨a, _ | ⟨b, _ | ⟨c, t⟩⟩⟩
  · rfl
  · rfl
  · exact absurd (by rw [wellFormed, hf]; rfl) hbad
  · rfl

theorem strToMetricsAux_ok (parts : List (List Char)) :
    ∀ acc : Metrics, (∀ p ∈ parts, wellFormed p) →
    ((acc.map Prod.fst) ++ parts.map tokenName).Nodup →
    strToMetricsAux parts acc =
      .ok (acc ++ parts.map fun p => (tokenName p, tokenValue p)) := by
  induction parts with
  | nil => intro acc _ _; simp [strToMetricsAux]
  | cons part rest ih =>
    intro acc hwf hnd
    obtain ⟨m, v, hf⟩ :=
      (wellFormed_iff part).mp (hwf part (List.mem_cons_self part rest))
    have hname : tokenName part = ⟨m⟩ := by rw [tokenName, hf]; rfl
    have hval : tokenValue part = ⟨v⟩ := by rw [tokenValue, hf]; rfl
    rw [List.map_cons, hname] at hnd
    have hnotin : (⟨m⟩ : String) ∉ acc.map Prod.fst := by
      intro hmem
      exact (List.nodup_append.mp hnd).2.2 hmem (List.mem_cons_self _ _)
    have hlook : mapLookup (⟨m⟩ : String) acc = none :=
      (mapLookup_eq_none _ _).mpr hnotin
    rw [strToMetricsAux_cons, hf]
    simp only [hlook, Option.isSome_none, Bool.false_eq_true, if_false]
    have hnd' : ((acc ++ [((⟨m⟩ : String), (⟨v⟩ : String))]).map Prod.fst
        ++ rest.map tokenName).Nodup := by
      simpa [List.append_assoc] using hnd
    have hrec := ih (acc ++ [((⟨m⟩ : String), (⟨v⟩ : String))])
      (fun p hp => hwf p (List.mem_cons_of_mem _ hp)) hnd'
    rw [hrec]
    simp [hname, hval, List.append_assoc]

theorem strToMetricsAux_dup (parts : List (List Char)) :
    ∀ acc : Metrics, (∀ p ∈ parts, wellFormed p) →
    (acc.map Prod.fst).Nodup →
    ¬ ((acc.map Prod.fst) ++ parts.map tokenName).Nodup →
    ∃ m, strToMetricsAux parts acc = .error (.duplicateMetric m) := by
  induction parts with
  | nil => intro acc _ hnd hdup; simp at hdup; exact absurd hnd hdup
  | cons part rest ih =>
    intro acc hwf hnd hdup
    obtain ⟨m, v, hf⟩ :=
      (wellFormed_iff part).mp (hwf part (List.mem_cons_self part rest))
    have hname : tokenName part = ⟨m⟩ := by rw [tokenName, hf]; rfl
    rw [List.map_cons, hname] at hdup
    rw [strToMetricsAux_cons_wf part rest acc m v hf]
    cases hlook : mapLookup (⟨m⟩ : String) acc with
    | some w =>
      exact ⟨⟨m⟩, rfl⟩
    | none =>
      have hnotin : (⟨m⟩ : String) ∉ acc.map Prod.fst :=
        (mapLookup_eq_none _ _).mp hlook
      simp only [Option.isSome_none, Bool.false_eq_true, if_false]
      refine ih (acc ++ [(⟨m⟩, ⟨v⟩)]) (fun p hp => hwf p (List.mem_cons_of_mem _ hp)) ?_ ?_
      · simp only [List.map_append, List.map_cons, List.map_nil]
        rw [List.nodup_append]
        refine ⟨hnd, List.nodup_singleton _, ?_⟩
        intro x hx hx'
        rw [List.mem_singleton] at hx'
        subst hx'
        exact hnotin hx
      · intro hcon
        apply hdup
        simpa [List.append_assoc] using hcon

theorem strToMetricsAux_malformed (parts : List (List Char)) :
    ∀ acc : Metrics, ∀ bad : List Char, ∀ post : List (List Char),
    (∀ p ∈ parts, wellFormed p) →
    ((acc.map Prod.fst) ++ parts.map tokenName).Nodup →
    ¬ wellFormed bad →
    strToMetricsAux (parts ++ bad :: post) acc = .error (.malformedToken ⟨bad⟩) := by
  induction parts with
  | nil =>
    intro acc bad post _ _ hbad
    rw [List.nil_append]
    exact strToMetricsAux_cons_bad bad post acc hbad
  | cons part rest ih =>
    intro acc bad post hwf hnd hbad
    obtain ⟨m, v, hf⟩ :=
      (wellFormed_iff part).mp (hwf part (List.mem_cons_self part rest))
    have hname : tokenName part = ⟨m⟩ := by rw [tokenName, hf]; rfl
    rw [List.map_cons, hname] at hnd
    have hnotin : (⟨m⟩ : String) ∉ acc.map Prod.fst := by
      intro hmem
      exact (List.nodup_append.mp hnd).2.2 hmem (List.mem_cons_self _ _)
    have hlook : mapLookup (⟨m⟩ : String) acc = none :=
      (mapLookup_eq_none _ _).mpr hnotin
    rw [List.cons_append, strToMetricsAux_cons, hf]
    simp only [hlook, Option.isSome_none, Bool.false_eq_true, if_false]
    exact ih (acc ++ [(⟨m⟩, ⟨v⟩)]) bad post
      (fun p hp => hwf p (List.mem_cons_of_mem _ hp))
      (by simpa [List.append_assoc] using hnd) hbad

theorem strToMetricsAux_nodup (parts : List (List Char)) :
    ∀ acc ms : Metrics, (acc.map Prod.fst).Nodup →
    strToMetricsAux parts acc = .ok ms → (ms.map Prod.fst).Nodup := by
  induction parts with
  | nil =>
    intro acc ms hnd h
    rw [strToMetricsAux] at h
    cases h
    exact hnd
  | cons part rest ih =>
    intro acc ms hnd h
    by_cases hwf : wellFormed part
    · obtain ⟨a, b, hf⟩ := (wellFormed_iff part).mp hwf
      rw [strToMetricsAux_cons_wf part rest acc a b hf] at h
      cases hlook : mapLookup (⟨a⟩ : String) acc with
      | some w => rw [hlook] at h; simp at h
      | none =>
        rw [hlook] at h
        simp only [Option.isSome_none, Bool.false_eq_true, if_false] at h
        refine ih (acc ++ [(⟨a⟩, ⟨b⟩)]) ms ?_ h
        simp only [List.map_append, List.map_cons, List.map_nil]
        rw [List.nodup_append]
        refine ⟨hnd, List.nodup_singleton _, ?_⟩
        intro x hx hx'
        rw [List.mem_singleton] at hx'
        subst hx'
        exact (mapLookup_eq_none _ _).mp hlook hx
    · rw [strToMetricsAux_cons_bad part rest acc hwf] at h
      cases h

theorem strToMetrics_ok_nodup (s : String) (ms : Metrics)
    (h : strToMetrics s = .ok ms) : (ms.map Prod.fst).Nodup :=
  strToMetricsAux_nodup (s.data.splitOn partSeparator) [] ms (by simp) h

/-! ### WeightsMetrics.Set characterization -/

theorem wmsSet_unknown (W : Weights) (ms : Metrics) (m v : String)
    (h : mapLookup m W = none) :
    WeightsMetrics.Set ⟨ms, W⟩ m v = (⟨ms, W⟩, some (.unknownMetric m)) := by
  simp [WeightsMetrics.Set, h]

theorem wmsSet_invalid (W : Weights) (ms : Metrics) (m v : String)
    (tbl : List (String × Float)) (h : mapLookup m W = some tbl)
    (h2 : mapLookup v tbl = none) :
    WeightsMetrics.Set ⟨ms, W⟩ m v = (⟨ms, W⟩, some (.invalidValue m v)) := by
  simp [WeightsMetrics.Set, h, h2]

theorem wmsSet_ok (W : Weights) (ms : Metrics) (m v : String)
    (tbl : List (String × Float)) (w : Float) (h : mapLookup m W = some tbl)
    (h2 : mapLookup v tbl = some w) :
    WeightsMetrics.Set ⟨ms, W⟩ m v = (⟨mapInsert m v ms, W⟩, none) := by
  simp [WeightsMetrics.Set, h, h2, Metrics.Set]

/-! ### The weight-table membership invariant -/

theorem winv_insert (W : Weights) (ms : Metrics) (m v : String)
    (tbl : List (String × Float)) (w : Float) (h : WInv W ms)
    (h1 : mapLookup m W = some tbl) (h2 : mapLookup v tbl = some w) :
    WInv W (mapInsert m v ms) := by
  intro m' v' hlk
  by_cases hm : m' = m
  · subst hm
    rw [mapLookup_mapInsert_self] at hlk
    cases hlk
    exact ⟨tbl, w, h1, h2⟩
  · rw [mapLookup_mapInsert_of_ne _ _ _ _ hm] at hlk
    exact h m' v' hlk

theorem winv_set (W : Weights) (ms : Metrics) (m v : String) (h : WInv W ms) :
    WInv W ((WeightsMetrics.Set ⟨ms, W⟩ m v).1.metrics) := by
  cases h1 : mapLookup m W with
  | none => rw [wmsSet_unknown W ms m v h1]; exact h
  | some tbl =>
    cases h2 : mapLookup v tbl with
    | none => rw [wmsSet_invalid W ms m v tbl h1 h2]; exact h
    | some w =>
      rw [wmsSet_ok W ms m v tbl w h1 h2]
      exact winv_insert W ms m v tbl w h h1 h2

theorem winv_parseLoop (W : Weights) (ps : Metrics) :
    ∀ ms : Metrics, WInv W ms →
    WInv W ((WeightsMetrics.parseLoop ⟨ms, W⟩ ps).1.metrics) ∧
    (WeightsMetrics.parseLoop ⟨ms, W⟩ ps).1.weights = W := by
  induction ps with
  | nil => intro ms h; exact ⟨h, rfl⟩
  | cons p rest ih =>
    obtain ⟨m, v⟩ := p
    intro ms h
    cases h1 : mapLookup m W with
    | none =>
      simp only [WeightsMetrics.parseLoop, wmsSet_unknown W ms m v h1]
      exact ⟨h, trivial⟩
    | some tbl =>
      cases h2 : mapLookup v tbl with
      | none =>
        simp only [WeightsMetrics.parseLoop, wmsSet_invalid W ms m v tbl h1 h2]
        exact ⟨h, trivial⟩
      | some w =>
        simp only [WeightsMetrics.parseLoop, wmsSet_ok W ms m v tbl w h1 h2]
        exact ih (mapInsert m v ms) (winv_insert W ms m v tbl w h h1 h2)

theorem winv_parse (W : Weights) (ms : Metrics) (s : String) (h : WInv W ms) :
    WInv W ((WeightsMetrics.Parse ⟨ms, W⟩ s).1.metrics) := by
  rw [WeightsMetrics.Parse]
  cases hp : strToMetrics s with
  | error e => exact h
  | ok ps => exact (winv_parseLoop W ps ms h).1

theorem reachable_winv (W : Weights) (ms : Metrics)
    (h : ReachableWM W ms) : WInv W ms := by
  induction h with
  | init => intro m v hlk; simp [mapLookup] at hlk
  | set ms m v _ ih => exact winv_set W ms m v ih
  | parse ms s _ ih => exact winv_parse W ms s ih

/-! ### Weight lookup behaviour -/

theorem weight_some (W : Weights) (ms : Metrics) (m v : String)
    (tbl : List (String × Float)) (w : Float)
    (hlk : mapLookup m ms = some v) (h1 : mapLookup m W = some tbl)
    (h2 : mapLookup v tbl = some w) :
    WeightsMetrics.Weight ⟨ms, W⟩ m = .ok w := by
  simp [WeightsMetrics.Weight, Metrics.Get, hlk, weightsIndex, h1, h2]

theorem weight_none (W : Weights) (ms : Metrics) (m : String)
    (hlk : mapLookup m ms = none) :
    WeightsMetrics.Weight ⟨ms, W⟩ m =
      .error (.wrap ("unable to get value for metric " ++ m) (.notFound m)) := by
  simp [WeightsMetrics.Weight, Metrics.Get, hlk]

/-! ### Decomposition of a failing parse loop -/

theorem parseLoop_error_decomp (W : Weights) (ps : Metrics) :
    ∀ (ms : Metrics) (wms' : WeightsMetrics) (e : MetricsError),
    (ps.map Prod.fst).Nodup →
    WeightsMetrics.parseLoop ⟨ms, W⟩ ps = (wms', some e) →
    ∃ pre m v post e0,
      ps = pre ++ (m, v) :: post ∧
      (∀ p ∈ pre, mapLookup p.1 wms'.metrics = some p.2) ∧
      (∀ k, k ∉ pre.map Prod.fst → mapLookup k wms'.metrics = mapLookup k ms) ∧
      wms'.weights = W ∧
      e = .wrap ("unable to set metric " ++ m ++ " to " ++ v) e0 ∧
      ((mapLookup m W = none ∧ e0 = .unknownMetric m) ∨
        (∃ tbl, mapLookup m W = some tbl ∧ mapLookup v tbl = none ∧
          e0 = .invalidValue m v)) := by
  induction ps with
  | nil =>
    intro ms wms' e _ h
    rw [WeightsMetrics.parseLoop] at h
    simp at h
  | cons p rest ih =>
    obtain ⟨m0, v0⟩ := p
    intro ms wms' e hnd h
    rw [List.map_cons, List.nodup_cons] at hnd
    cases h1 : mapLookup m0 W with
    | none =>
      simp only [WeightsMetrics.parseLoop, wmsSet_unknown W ms m0 v0 h1] at h
      rw [Prod.mk.injEq] at h
      obtain ⟨hw, he⟩ := h
      subst hw
      rw [Option.some.injEq] at he
      refine ⟨[], m0, v0, rest, .unknownMetric m0, rfl, by simp, ?_, rfl,
        he.symm, Or.inl ⟨h1, rfl⟩⟩
      intro k _
      rfl
    | some tbl =>
      cases h2 : mapLookup v0 tbl with
      | none =>
        simp only [WeightsMetrics.parseLoop,
          wmsSet_invalid W ms m0 v0 tbl h1 h2] at h
        rw [Prod.mk.injEq] at h
        obtain ⟨hw, he⟩ := h
        subst hw
        rw [Option.some.injEq] at he
        refine ⟨[], m0, v0, rest, .invalidValue m0 v0, rfl, by simp, ?_, rfl,
          he.symm, Or.inr ⟨tbl, h1, h2, rfl⟩⟩
        intro k _
        rfl
      | some w =>
        simp only [WeightsMetrics.parseLoop,
          wmsSet_ok W ms m0 v0 tbl w h1 h2] at h
        obtain ⟨pre, m, v, post, e0, hps, hpre, hunch, hw, he, hchar⟩ :=
          ih (mapInsert m0 v0 ms) wms' e hnd.2 h
        have hm0pre : m0 ∉ pre.map Prod.fst := by
          intro hmem
          apply hnd.1
          rw [hps, List.map_append]
          exact List.mem_append_left _ hmem
        refine ⟨(m0, v0) :: pre, m, v, post, e0, by rw [hps, List.cons_append], ?_, ?_, hw, he,
          hchar⟩
        · rintro p hp
          rcases List.mem_cons.mp hp with rfl | hp
          · rw [hunch m0 hm0pre, mapLookup_mapInsert_self]
          · exact hpre p hp
        · intro k hk
          rw [List.map_cons, List.mem_cons] at hk
          push_neg at hk
          rw [hunch k hk.2, mapLookup_mapInsert_of_ne _ _ _ _ hk.1]

/-! ### Vectors built by valid Set calls -/

theorem builtBySet_nodup (ms : Metrics) (h : BuiltBySet ms) :
    (ms.map Prod.fst).Nodup := by
  induction h with
  | init => simp
  | step ms m v _ _ _ ih => exact nodup_keys_mapInsert m v ms ih

theorem builtBySet_valid (ms : Metrics) (h : BuiltBySet ms) :
    ∀ p ∈ ms, validIdent p.1 ∧ validIdent p.2 := by
  induction h with
  | init => intro p hp; cases hp
  | step ms m v _ hm hv ih =>
    intro p hp
    rcases mem_mapInsert p m v ms hp with rfl | hp
    · exact ⟨hm, hv⟩
    · exact ih p hp

/-! ### Round trip -/

theorem intercalate_single (x : Char) (a : List Char) :
    [x].intercalate [a] = a := by
  simp [List.intercalate]

theorem string_roundTrip (l : Metrics) (hne : l ≠ [])
    (hnd : (l.map Prod.fst).Nodup)
    (hfree : ∀ p ∈ l, partSeparator ∉ p.1.data ∧ partSeparator ∉ p.2.data)
    (hfree2 : ∀ p ∈ l, metricSeparator ∉ p.1.data ∧ metricSeparator ∉ p.2.data) :
    strToMetrics (Metrics.string l) = .ok l := by
  rw [strToMetrics, string_data_splitOn l hne (fun p hp =>
    partSeparator_not_mem_metricToken p (hfree p hp).1 (hfree p hp).2)]
  have hwf : ∀ q ∈ l.map metricToken, wellFormed q := by
    intro q hq
    rw [List.mem_map] at hq
    obtain ⟨p, hp, rfl⟩ := hq
    exact wellFormed_metricToken p (hfree2 p hp).1 (hfree2 p hp).2
  have hnames : (l.map metricToken).map tokenName = l.map Prod.fst := by
    rw [List.map_map]
    refine List.map_congr_left ?_
    intro p hp
    exact tokenName_metricToken p (hfree2 p hp).1 (hfree2 p hp).2
  rw [strToMetricsAux_ok (l.map metricToken) [] hwf
    (by rw [List.map_nil, List.nil_append, hnames]; exact hnd)]
  rw [List.nil_append, List.map_map]
  have hid : ∀ p ∈ l,
      ((fun q => (tokenName q, tokenValue q)) ∘ metricToken) p = id p := by
    intro p hp
    show (tokenName (metricToken p), tokenValue (metricToken p)) = p
    rw [tokenName_metricToken p (hfree2 p hp).1 (hfree2 p hp).2,
      tokenValue_metricToken p (hfree2 p hp).1 (hfree2 p hp).2]
  rw [List.map_congr_left hid, List.map_id]

/-! ### Claims -/

/-- C1, counterexample to the claim as stated: the empty vector is built
by (zero) valid `Set` calls, yet parsing the string it serializes to
(`""`) fails with a malformed-token error instead of yielding an equal
vector, so the round trip does not hold for every vector built by valid
`Set` calls. -/
theorem c1_counterexample :
    BuiltBySet ([] : Metrics) ∧
    strToMetrics (Metrics.string ([] : Metrics)) =
      .error (.malformedToken "") :=
  ⟨BuiltBySet.init, rfl⟩

/-- C1 (amended: the vector must contain at least one pair): for every
MetricVector `v` built by valid `Set` calls that is non-empty, and every
order `l` in which `String()` may serialize its entries, parsing the
produced string succeeds and yields a vector equal as a mapping to `v`. -/
theorem c1_roundTrip (v l : Metrics) (hb : BuiltBySet v) (hne : v ≠ [])
    (hperm : l.Perm v) :
    ∃ m, strToMetrics (Metrics.string l) = .ok m ∧
      ∀ k, mapLookup k m = mapLookup k v := by
  have hndv := builtBySet_nodup v hb
  have hvalv := builtBySet_valid v hb
  have hndl : (l.map Prod.fst).Nodup :=
    ((hperm.map Prod.fst).nodup_iff).mpr hndv
  have hvall : ∀ p ∈ l, validIdent p.1 ∧ validIdent p.2 := fun p hp =>
    hvalv p (hperm.mem_iff.mp hp)
  have hnel : l ≠ [] := by
    intro h
    subst h
    exact hne hperm.nil_eq.symm
  exact ⟨l, string_roundTrip l hnel hndl
      (fun p hp => ⟨(hvall p hp).1.2.1, (hvall p hp).2.2.1⟩)
      (fun p hp => ⟨(hvall p hp).1.2.2, (hvall p hp).2.2.2⟩),
    mapLookup_eq_of_perm l v hperm hndv⟩

/-- C1 witness: the round trip at the concrete vector `A:B, C:D`,
serialized in the opposite order. -/
theorem c1_roundTrip_witness :
    ∃ m, strToMetrics
        (Metrics.string [(("C", "D") : String × String), ("A", "B")]) =
          .ok m ∧
      ∀ k, mapLookup k m =
        mapLookup k [(("A", "B") : String × String), ("C", "D")] :=
  c1_roundTrip [("A", "B"), ("C", "D")] [("C", "D"), ("A", "B")]
    (BuiltBySet.step [("A", "B")] "C" "D"
      (BuiltBySet.step [] "A" "B" BuiltBySet.init (by decide) (by decide))
      (by decide) (by decide))
    (by decide) (by decide)

/-- C8: `Metrics.Set` never fails, calling it twice with the same pair
returns no error on either call and leaves `Get` returning the value,
and a single `Set` unconditionally overwrites any previous value. -/
theorem c8_set_idempotent (ms : Metrics) (m v : String) :
    (Metrics.Set ms m v).2 = none ∧
    (Metrics.Set (Metrics.Set ms m v).1 m v).2 = none ∧
    Metrics.Get (Metrics.Set (Metrics.Set ms m v).1 m v).1 m = .ok v ∧
    Metrics.Get (Metrics.Set ms m v).1 m = .ok v := by
  refine ⟨rfl, rfl, ?_, ?_⟩ <;>
    simp [Metrics.Set, Metrics.Get, mapLookup_mapInsert_self]

/-- C9: the empty `Metrics` serializes to `""`, and parsing `""` fails
with a malformed-token error on the single empty token, so the empty
vector does not round-trip through `String`/`strToMetrics`. -/
theorem c9_empty_string :
    Metrics.string ([] : Metrics) = "" ∧
    strToMetrics "" = .error (.malformedToken "") ∧
    strToMetrics (Metrics.string ([] : Metrics)) =
      .error (.malformedToken "") :=
  ⟨rfl, rfl, rfl⟩

/-- C10: the raw parse does not enforce non-empty identifiers: `":"`
parses to the mapping with the empty name bound to the empty value, and
any single token `x:y` whose `x` and `y` are merely separator-free
(possibly empty) is accepted. -/
theorem c10_empty_identifiers :
    strToMetrics ":" = .ok [("", "")] ∧
    ∀ x y : String, partSeparator ∉ x.data → metricSeparator ∉ x.data →
      partSeparator ∉ y.data → metricSeparator ∉ y.data →
      strToMetrics ⟨metricToken (x, y)⟩ = .ok [(x, y)] := by
  refine ⟨rfl, ?_⟩
  intro x y hx1 hx2 hy1 hy2
  have hs : (⟨metricToken (x, y)⟩ : String) = Metrics.string [(x, y)] := by
    rw [Metrics.string, List.map_cons, List.map_nil, intercalate_single]
  rw [hs]
  exact string_roundTrip [(x, y)] (by simp) (by simp)
    (by intro p hp; rw [List.mem_singleton] at hp; subst hp; exact ⟨hx1, hy1⟩)
    (by intro p hp; rw [List.mem_singleton] at hp; subst hp; exact ⟨hx2, hy2⟩)

/-- C10 witness: the general acceptance of empty identifiers applied at
the empty name and the value `v`, giving the token `:v`. -/
theorem c10_empty_identifiers_witness :
    strToMetrics ⟨metricToken (("" : String), ("v" : String))⟩ =
      .ok [("", "v")] :=
  c10_empty_identifiers.2 "" "v" (by decide) (by decide) (by decide)
    (by decide)

theorem weight_lookup_some (W : Weights) (ms : Metrics) (m v : String)
    (hlk : mapLookup m ms = some v) :
    WeightsMetrics.Weight ⟨ms, W⟩ m = .ok (weightsIndex W m v) := by
  simp [WeightsMetrics.Weight, Metrics.Get, hlk]

/-- C2: in every state reachable only through `WeightsMetrics.Set` and
`Parse`, every stored metric is a key of the weight table and its stored
value a key of the inner table, so `Weight` succeeds on every set metric
and returns exactly the table weight `Weights[m][Get(m)]`, and `Weight`
fails with a NotFound cause exactly on the metrics never set. -/
theorem c2_weight_invariant (W : Weights) (ms : Metrics)
    (h : ReachableWM W ms) :
    (∀ m v, mapLookup m ms = some v →
      ∃ tbl w, mapLookup m W = some tbl ∧ mapLookup v tbl = some w ∧
        WeightsMetrics.Weight ⟨ms, W⟩ m = .ok w) ∧
    (∀ m, mapLookup m ms = none →
      WeightsMetrics.Weight ⟨ms, W⟩ m =
        .error (.wrap ("unable to get value for metric " ++ m)
          (.notFound m))) ∧
    (∀ m, (∃ err, WeightsMetrics.Weight ⟨ms, W⟩ m = .error err ∧
        err.cause = .notFound m) ↔ mapLookup m ms = none) := by
  have hinv := reachable_winv W ms h
  refine ⟨?_, ?_, ?_⟩
  · intro m v hlk
    obtain ⟨tbl, w, h1, h2⟩ := hinv m v hlk
    exact ⟨tbl, w, h1, h2, weight_some W ms m v tbl w hlk h1 h2⟩
  · intro m hlk
    exact weight_none W ms m hlk
  · intro m
    constructor
    · rintro ⟨err, herr, _⟩
      cases hlk : mapLookup m ms with
      | none => rfl
      | some v =>
        obtain ⟨tbl, w, h1, h2⟩ := hinv m v hlk
        rw [weight_some W ms m v tbl w hlk h1 h2] at herr
        cases herr
    · intro hlk
      exact ⟨_, weight_none W ms m hlk, rfl⟩

/-- C2 witness: over the table `AV ↦ (N ↦ 0.85)`, the state reached by
one successful `Set` call has `Weight "AV" = ok 0.85`. -/
theorem c2_weight_invariant_witness :
    WeightsMetrics.Weight
      ⟨[("AV", "N")], [("AV", [("N", (0.85 : Float))])]⟩ "AV" =
        .ok 0.85 := by
  obtain ⟨h1, _, _⟩ := c2_weight_invariant [("AV", [("N", (0.85 : Float))])]
    [("AV", "N")]
    (ReachableWM.set [] "AV" "N" ReachableWM.init)
  obtain ⟨tbl, w, htbl, hw, hW⟩ := h1 "AV" "N" rfl
  have heval : mapLookup "AV" [("AV", [("N", (0.85 : Float))])] =
      some [("N", (0.85 : Float))] := rfl
  have htbl' : tbl = [("N", (0.85 : Float))] :=
    Option.some.inj (htbl.symm.trans heval)
  subst htbl'
  have heval2 : mapLookup "N" [("N", (0.85 : Float))] =
      some (0.85 : Float) := rfl
  have hw' : w = 0.85 := Option.some.inj (hw.symm.trans heval2)
  subst hw'
  exact hW

/-- C3: `WeightsMetrics.Set` fails with UnknownMetric when the metric is
not in the table, fails with InvalidValue when the value is not in the
metric's inner table, and otherwise succeeds and stores the pair in the
underlying Metrics, leaving the state otherwise unchanged. -/
theorem c3_set_trichotomy (W : Weights) (ms : Metrics) (m v : String) :
    (mapLookup m W = none →
      WeightsMetrics.Set ⟨ms, W⟩ m v =
        (⟨ms, W⟩, some (.unknownMetric m))) ∧
    (∀ tbl, mapLookup m W = some tbl → mapLookup v tbl = none →
      WeightsMetrics.Set ⟨ms, W⟩ m v =
        (⟨ms, W⟩, some (.invalidValue m v))) ∧
    (∀ tbl w, mapLookup m W = some tbl → mapLookup v tbl = some w →
      WeightsMetrics.Set ⟨ms, W⟩ m v = (⟨mapInsert m v ms, W⟩, none) ∧
        mapLookup m (WeightsMetrics.Set ⟨ms, W⟩ m v).1.metrics = some v) :=
  ⟨fun h => wmsSet_unknown W ms m v h,
   fun tbl h h2 => wmsSet_invalid W ms m v tbl h h2,
   fun tbl w h h2 => ⟨wmsSet_ok W ms m v tbl w h h2, by
     rw [wmsSet_ok W ms m v tbl w h h2]
     exact mapLookup_mapInsert_self m v ms⟩⟩

/-- C3 witness: over the table `AV ↦ (N ↦ 0.85)`, setting an unknown
metric, an invalid value, and a valid pair behave as claimed. -/
theorem c3_set_trichotomy_witness :
    WeightsMetrics.Set ⟨[], [("AV", [("N", (0.85 : Float))])]⟩ "XX" "N" =
      (⟨[], [("AV", [("N", (0.85 : Float))])]⟩,
        some (.unknownMetric "XX")) ∧
    WeightsMetrics.Set ⟨[], [("AV", [("N", (0.85 : Float))])]⟩ "AV" "Z" =
      (⟨[], [("AV", [("N", (0.85 : Float))])]⟩,
        some (.invalidValue "AV" "Z")) ∧
    WeightsMetrics.Set ⟨[], [("AV", [("N", (0.85 : Float))])]⟩ "AV" "N" =
      (⟨[("AV", "N")], [("AV", [("N", (0.85 : Float))])]⟩, none) :=
  ⟨(c3_set_trichotomy [("AV", [("N", (0.85 : Float))])] [] "XX" "N").1 rfl,
   (c3_set_trichotomy [("AV", [("N", (0.85 : Float))])] [] "AV" "Z").2.1
     [("N", (0.85 : Float))] rfl rfl,
   ((c3_set_trichotomy [("AV", [("N", (0.85 : Float))])] [] "AV" "N").2.2
     [("N", (0.85 : Float))] 0.85 rfl rfl).1⟩

/-- C7: `WeightDefault` never fails: it returns the supplied default
unchanged when the metric was never set, and the table weight
`Weights[metric][v]` (Go map indexing) when the metric is set to `v`. -/
theorem c7_weightDefault (wms : WeightsMetrics) (m : String) (d : Float) :
    (mapLookup m wms.metrics = none →
      WeightsMetrics.WeightDefault wms m d = d) ∧
    (∀ v, mapLookup m wms.metrics = some v →
      WeightsMetrics.WeightDefault wms m d = weightsIndex wms.weights m v) := by
  obtain ⟨ms, W⟩ := wms
  constructor
  · intro hlk
    simp [WeightsMetrics.WeightDefault, weight_none W ms m hlk]
  · intro v hlk
    simp [WeightsMetrics.WeightDefault, weight_lookup_some W ms m v hlk]

/-- C7 witness: with metric `AV` set to `N` over the table
`AV ↦ (N ↦ 0.85)`, `WeightDefault` returns the table entry for `AV` and
the untouched default for the never-set `XX`. -/
theorem c7_weightDefault_witness :
    WeightsMetrics.WeightDefault
      ⟨[("AV", "N")], [("AV", [("N", (0.85 : Float))])]⟩ "AV" 1.5 =
        weightsIndex [("AV", [("N", (0.85 : Float))])] "AV" "N" ∧
    WeightsMetrics.WeightDefault
      ⟨[("AV", "N")], [("AV", [("N", (0.85 : Float))])]⟩ "XX" 1.5 = 1.5 :=
  ⟨(c7_weightDefault ⟨[("AV", "N")], [("AV", [("N", (0.85 : Float))])]⟩
      "AV" 1.5).2 "N" rfl,
   (c7_weightDefault ⟨[("AV", "N")], [("AV", [("N", (0.85 : Float))])]⟩
      "XX" 1.5).1 rfl⟩

/-- C4, counterexample to the claim as stated: in `A/B:C/B:D` the metric
name `B` appears in two tokens, yet parsing fails with a malformed-token
error on the earlier token `A`, not with a duplicate-metric error. -/
theorem c4_counterexample :
    (("A/B:C/B:D" : String).data.splitOn partSeparator).map tokenName =
      ["A", "B", "B"] ∧
    strToMetrics "A/B:C/B:D" = .error (.malformedToken "A") ∧
    ∀ m, strToMetrics "A/B:C/B:D" ≠ .error (.duplicateMetric m) := by
  refine ⟨rfl, rfl, ?_⟩
  intro m h
  have h0 : strToMetrics "A/B:C/B:D" = .error (.malformedToken "A") := rfl
  rw [h0] at h
  exact MetricsError.noConfusion (Except.error.inj h)

/-- C4 (amended: every token must also be well formed, since a malformed
token earlier in the string is reported first): for every input string
whose tokens all split into exactly two fields and in which some metric
name appears in two tokens, parsing fails with DuplicateMetric, and a
`WeightsMetrics.Parse` of such a string returns the wrapped error with
the vector state unchanged. -/
theorem c4_duplicateMetric (str : String)
    (hwf : ∀ part ∈ str.data.splitOn partSeparator, wellFormed part)
    (hdup : ¬ ((str.data.splitOn partSeparator).map tokenName).Nodup) :
    ∃ m, strToMetrics str = .error (.duplicateMetric m) ∧
      ∀ (W : Weights) (ms : Metrics),
        WeightsMetrics.Parse ⟨ms, W⟩ str =
          (⟨ms, W⟩, some (.wrap "unable to parse metrics"
            (.duplicateMetric m))) := by
  obtain ⟨m, hm⟩ := strToMetricsAux_dup (str.data.splitOn partSeparator) []
    hwf (by simp) (by simpa using hdup)
  have hm' : strToMetrics str = .error (.duplicateMetric m) := hm
  refine ⟨m, hm', ?_⟩
  intro W ms
  simp [WeightsMetrics.Parse, hm']

/-- C4 witness: parsing `A:B/A:C`, whose tokens are well formed and
repeat the metric name `A`. -/
theorem c4_duplicateMetric_witness :
    (∀ part ∈ ("A:B/A:C" : String).data.splitOn partSeparator,
      wellFormed part) ∧
    ¬ ((("A:B/A:C" : String).data.splitOn partSeparator).map
        tokenName).Nodup ∧
    ∃ m, strToMetrics "A:B/A:C" = .error (.duplicateMetric m) ∧
      ∀ (W : Weights) (ms : Metrics),
        WeightsMetrics.Parse ⟨ms, W⟩ "A:B/A:C" =
          (⟨ms, W⟩, some (.wrap "unable to parse metrics"
            (.duplicateMetric m))) :=
  ⟨by decide, by decide,
    c4_duplicateMetric "A:B/A:C" (by decide) (by decide)⟩

/-- C5, counterexample to the claim as stated: `A:B/A:C/X` contains the
token `X`, which does not split into two fields, yet parsing fails with
a duplicate-metric error on `A`, not with a malformed-token error. -/
theorem c5_counterexample :
    ("X" : String).data ∈
      ("A:B/A:C/X" : String).data.splitOn partSeparator ∧
    ¬ wellFormed ("X" : String).data ∧
    strToMetrics "A:B/A:C/X" = .error (.duplicateMetric "A") ∧
    ∀ t, strToMetrics "A:B/A:C/X" ≠ .error (.malformedToken t) := by
  refine ⟨by decide, by decide, rfl, ?_⟩
  intro t h
  have h0 : strToMetrics "A:B/A:C/X" = .error (.duplicateMetric "A") := rfl
  rw [h0] at h
  exact MetricsError.noConfusion (Except.error.inj h)

/-- C5 (amended: the tokens before the malformed one must be well formed
with distinct metric names, since an earlier malformed token or an
earlier duplicate is reported first): parsing a string whose token list
decomposes as well-formed distinct-name tokens followed by a token that
does not split into two fields fails with MalformedToken on that token;
and parsing a string whose tokens are all well formed with distinct
names succeeds with exactly the parsed pairs. -/
theorem c5_malformed_success :
    (∀ (str : String) (pre : List (List Char)) (bad : List Char)
      (post : List (List Char)),
      str.data.splitOn partSeparator = pre ++ bad :: post →
      (∀ p ∈ pre, wellFormed p) → (pre.map tokenName).Nodup →
      ¬ wellFormed bad →
      strToMetrics str = .error (.malformedToken ⟨bad⟩)) ∧
    (∀ str : String,
      (∀ p ∈ str.data.splitOn partSeparator, wellFormed p) →
      ((str.data.splitOn partSeparator).map tokenName).Nodup →
      strToMetrics str =
        .ok ((str.data.splitOn partSeparator).map fun p =>
          (tokenName p, tokenValue p))) := by
  constructor
  · intro str pre bad post hsplit hwf hnd hbad
    rw [strToMetrics, hsplit]
    exact strToMetricsAux_malformed pre [] bad post hwf
      (by simpa using hnd) hbad
  · intro str hwf hnd
    rw [strToMetrics]
    have h := strToMetricsAux_ok (str.data.splitOn partSeparator) [] hwf
      (by simpa using hnd)
    simpa using h

/-- C5 witness: the malformed case at `A:B/C` (the claim's own example)
and the success case at `A:B`. -/
theorem c5_malformed_success_witness :
    strToMetrics "A:B/C" = .error (.malformedToken "C") ∧
    strToMetrics "A:B" = .ok [("A", "B")] :=
  ⟨c5_malformed_success.1 "A:B/C" [("A:B" : String).data]
      ("C" : String).data [] rfl (by decide) (by decide) (by decide),
   c5_malformed_success.2 "A:B" (by decide) (by decide)⟩

/-- C6: when the raw parse of a string succeeds but a
`WeightsMetrics.Parse` of it fails, the parsed pair list splits around a
failing pair: every pair before it is committed in the vector, the
failing pair and all later pairs leave the vector entries as they were
before the call, and the returned error wraps the first validation
error (unknown metric, or invalid value for a known metric). -/
theorem c6_partial_application (W : Weights) (ms : Metrics) (str : String)
    (ps : Metrics) (wms' : WeightsMetrics) (e : MetricsError)
    (hok : strToMetrics str = .ok ps)
    (hfail : WeightsMetrics.Parse ⟨ms, W⟩ str = (wms', some e)) :
    ∃ pre m v post e0,
      ps = pre ++ (m, v) :: post ∧
      (∀ p ∈ pre, mapLookup p.1 wms'.metrics = some p.2) ∧
      (∀ p ∈ (m, v) :: post,
        mapLookup p.1 wms'.metrics = mapLookup p.1 ms) ∧
      e = .wrap ("unable to set metric " ++ m ++ " to " ++ v) e0 ∧
      ((mapLookup m W = none ∧ e0 = .unknownMetric m) ∨
        (∃ tbl, mapLookup m W = some tbl ∧ mapLookup v tbl = none ∧
          e0 = .invalidValue m v)) := by
  rw [WeightsMetrics.Parse, hok] at hfail
  have hnd := strToMetrics_ok_nodup str ps hok
  obtain ⟨pre, m, v, post, e0, hps, hpre, hunch, _, he, hchar⟩ :=
    parseLoop_error_decomp W ps ms wms' e hnd hfail
  refine ⟨pre, m, v, post, e0, hps, hpre, ?_, he, hchar⟩
  intro p hp
  apply hunch
  subst hps
  rw [List.map_append, List.nodup_append] at hnd
  exact fun hmem => hnd.2.2 hmem (List.mem_map_of_mem Prod.fst hp)

/-- C6 witness: over the table `AV ↦ (N ↦ 0.85)`, parsing `AV:N/XX:Y`
commits `AV:N` and then fails on the unknown metric `XX`, leaving the
committed pair in place. -/
theorem c6_partial_application_witness :
    strToMetrics "AV:N/XX:Y" = .ok [("AV", "N"), ("XX", "Y")] ∧
    WeightsMetrics.Parse ⟨[], [("AV", [("N", (0.85 : Float))])]⟩
        "AV:N/XX:Y" =
      (⟨[("AV", "N")], [("AV", [("N", (0.85 : Float))])]⟩,
        some (.wrap ("unable to set metric " ++ "XX" ++ " to " ++ "Y")
          (.unknownMetric "XX"))) ∧
    ∃ pre m v post e0,
      ([("AV", "N"), ("XX", "Y")] : Metrics) = pre ++ (m, v) :: post ∧
      (∀ p ∈ pre, mapLookup p.1 ([("AV", "N")] : Metrics) = some p.2) ∧
      (∀ p ∈ (m, v) :: post,
        mapLookup p.1 ([("AV", "N")] : Metrics) =
          mapLookup p.1 ([] : Metrics)) ∧
      (.wrap ("unable to set metric " ++ "XX" ++ " to " ++ "Y")
          (.unknownMetric "XX") : MetricsError) =
        .wrap ("unable to set metric " ++ m ++ " to " ++ v) e0 ∧
      ((mapLookup m [("AV", [("N", (0.85 : Float))])] = none ∧
          e0 = .unknownMetric m) ∨
        (∃ tbl, mapLookup m [("AV", [("N", (0.85 : Float))])] = some tbl ∧
          mapLookup v tbl = none ∧ e0 = .invalidValue m v)) :=
  ⟨rfl, rfl,
    c6_partial_application [("AV", [("N", (0.85 : Float))])] []
      "AV:N/XX:Y" [("AV", "N"), ("XX", "Y")]
      ⟨[("AV", "N")], [("AV", [("N", (0.85 : Float))])]⟩
      (.wrap ("unable to set metric " ++ "XX" ++ " to " ++ "Y")
        (.unknownMetric "XX")) rfl rfl⟩

end CvssCommon
